import Mathlib

/-
Verification of the WebSocket hub subsystem of the trading-bot-constructor
repository (Go). The definitions below are a shallow embedding of the hub
code: the Hub event loop (register, unregister, broadcast),
Hub.BroadcastToSubscribers, Client.SendMessage, the read-pump dispatch
(handleMessage, handleSubscription, handleUnsubscription) and the
read-deadline (keepalive) discipline of readPump. Go channels are modelled
as bounded queues with an open or closed flag; a Go panic (send on a closed
channel, double close) is modelled as an error of the Except monad. Machine
state is a pool of client objects indexed by a natural number identity plus
the registry list of identities currently in the member map of the hub.
-/

namespace TradingHub

/-- Subscription - the structure decoded from the payload of a subscribe or
unsubscribe frame. The field named Type in Go is rendered here as the
field named typ (Type is reserved in Lean); Instruments and AccountIDs are
the optional filter lists. -/
structure Subscription where
  typ : String
  Instruments : List String
  AccountIDs : List String
deriving DecidableEq

/-- The Data field of a Message has the dynamic Go type interface, used by
the hub at these shapes: absent (nil, marshalled as the JSON null value), a
one-key map carrying the client identity (the welcome message), a decoded
Subscription (subscription acknowledgements), or some other raw JSON value
that is not an object and not null. -/
inductive MsgData where
  | nilData : MsgData
  | clientIdMap (cid : String) : MsgData
  | sub (s : Subscription) : MsgData
  | raw (s : String) : MsgData
deriving DecidableEq

/-- Message - the wire envelope of the hub. The Go field Type is rendered
as typ. -/
structure Message where
  typ : String
  Action : String
  Data : MsgData
  Error : String
  Timestamp : Int
  ClientID : String
deriving DecidableEq

/-- The capacity of the send channel of each client, from the call
make with buffer 256 in WebSocketHandler. -/
def queueCapacity : Nat := 256

/-- A Go channel of messages: a bounded buffer plus a closed flag. -/
structure Chan where
  buf : List Message
  closed : Bool
deriving DecidableEq

/-- Non-blocking send on a channel, as performed by a select statement with
a default case. Sending on a closed channel panics. Returns the channel
and whether the value was enqueued (false means the default case ran). -/
def chanTrySend (ch : Chan) (m : Message) : Except String (Chan × Bool) :=
  if ch.closed then .error "send on closed channel"
  else if ch.buf.length < queueCapacity then .ok ({ ch with buf := ch.buf ++ [m] }, true)
  else .ok (ch, false)

/-- Closing a channel; closing an already closed channel panics. -/
def chanClose (ch : Chan) : Except String Chan :=
  if ch.closed then .error "close of closed channel"
  else .ok { ch with closed := true }

/-- A client object: identity, user association, subscription set (a Go
map from topic strings to true, modelled as a duplicate-free list of
topics) and the send channel. -/
structure Client where
  clientID : String
  userID : String
  subscriptions : List String
  send : Chan
deriving DecidableEq

/-- generateClientID - the identity assigned at connection time, the
string client underscore followed by the nanosecond clock value. -/
def generateClientID (nanos : Int) : String :=
  "client_" ++ toString nanos

/-- A freshly constructed client as built by WebSocketHandler: empty
subscription set, a new open send channel of capacity 256. -/
def freshClient (cid uid : String) : Client :=
  ⟨cid, uid, [], ⟨[], false⟩⟩

/-- The whole hub state: a pool giving the client object at each identity,
plus the registry, the list of identities currently in the member map. -/
structure HubState where
  pool : Nat → Client
  registry : List Nat

/-- Insertion of a key into the member map of the hub (Go map assignment:
present keys stay present once). -/
def registryInsert (r : List Nat) (i : Nat) : List Nat :=
  if i ∈ r then r else i :: r

/-- Insertion of a topic key into a subscription map (Go assignment of
true to the key). -/
def subsInsert (subs : List String) (t : String) : List String :=
  if t ∈ subs then subs else t :: subs

/-- The stamping step of Client.SendMessage: the ClientID field is set to
the identity of the client and the Timestamp to the send instant; all
other fields are passed through. -/
def sendMessageStamp (c : Client) (now : Int) (m : Message) : Message :=
  { m with ClientID := c.clientID, Timestamp := now }

/-- Client.SendMessage: stamp the message, then try a non-blocking send on
the send channel of the client; if the channel is full, close it (without
touching the registry). Returns the updated channel. -/
def clientSendMessage (c : Client) (now : Int) (m : Message) : Except String Chan :=
  match chanTrySend c.send (sendMessageStamp c now m) with
  | .error e => .error e
  | .ok (ch, sent) => if sent then .ok ch else chanClose c.send

/-- The welcome message built in the register case of Hub.Run. -/
def welcomeMsg (c : Client) (now : Int) : Message :=
  ⟨"system", "connected", .clientIdMap c.clientID, "", now, ""⟩

/-- The register case of Hub.Run: put the client into the member map, then
send the welcome message through Client.SendMessage. -/
def processRegister (s : HubState) (i : Nat) (now : Int) : Except String HubState :=
  match clientSendMessage (s.pool i) now (welcomeMsg (s.pool i) now) with
  | .error e => .error e
  | .ok ch =>
    .ok ⟨Function.update s.pool i { s.pool i with send := ch }, registryInsert s.registry i⟩

/-- The unregister case of Hub.Run: if the client is in the member map,
remove it and close its send channel; otherwise do nothing. -/
def processUnregister (s : HubState) (i : Nat) : Except String HubState :=
  if i ∈ s.registry then
    match chanClose (s.pool i).send with
    | .error e => .error e
    | .ok ch =>
      .ok ⟨Function.update s.pool i { s.pool i with send := ch }, s.registry.filter (· ≠ i)⟩
  else .ok s

/-- The per-client body of the broadcast loops: a non-blocking send; on
the default case (full queue) the client is evicted: its channel closed
and, as signalled by the returned flag, removed from the member map. -/
def evictOrEnqueue (c : Client) (m : Message) : Except String (Client × Bool) :=
  match chanTrySend c.send m with
  | .error e => .error e
  | .ok (ch, sent) =>
    if sent then .ok ({ c with send := ch }, true)
    else
      match chanClose ch with
      | .error e => .error e
      | .ok ch2 => .ok ({ c with send := ch2 }, false)

/-- The broadcast case of Hub.Run, iterating over a snapshot of the member
map: each registered client gets one non-blocking enqueue attempt; a full
queue means deletion from the map and closing of the channel. Also counts
the enqueue attempts made. -/
def broadcastAux (m : Message) : List Nat → HubState → Nat → Except String (HubState × Nat)
  | [], s, n => .ok (s, n)
  | i :: rest, s, n =>
    match evictOrEnqueue (s.pool i) m with
    | .error e => .error e
    | .ok (c, kept) =>
      broadcastAux m rest
        ⟨Function.update s.pool i c, if kept then s.registry else s.registry.filter (· ≠ i)⟩
        (n + 1)

/-- Processing one message taken from the broadcast channel in Hub.Run. -/
def processBroadcast (s : HubState) (m : Message) : Except String (HubState × Nat) :=
  broadcastAux m s.registry s 0

/-- Hub.BroadcastToSubscribers, iterating over a snapshot of the member
map: a client is touched only when its subscription map contains the
topic; then the same enqueue-or-evict step as the broadcast loop runs. -/
def broadcastSubsAux (t : String) (m : Message) :
    List Nat → HubState → Nat → Except String (HubState × Nat)
  | [], s, n => .ok (s, n)
  | i :: rest, s, n =>
    if (s.pool i).subscriptions.contains t then
      match evictOrEnqueue (s.pool i) m with
      | .error e => .error e
      | .ok (c, kept) =>
        broadcastSubsAux t m rest
          ⟨Function.update s.pool i c, if kept then s.registry else s.registry.filter (· ≠ i)⟩
          (n + 1)
    else broadcastSubsAux t m rest s n

/-- Hub.BroadcastToSubscribers on the full current member map. -/
def processBroadcastToSubscribers (s : HubState) (t : String) (m : Message) :
    Except String (HubState × Nat) :=
  broadcastSubsAux t m s.registry s 0

/-- One operation of the sequential interleaving model of the hub: the
three cases of the Hub.Run loop, the topic broadcast, and a call of
Client.SendMessage made by the read pump of a client (its replies). -/
inductive HubOp where
  | register (i : Nat) (now : Int) : HubOp
  | unregister (i : Nat) : HubOp
  | broadcast (m : Message) : HubOp
  | topicBroadcast (t : String) (m : Message) : HubOp
  | clientSend (i : Nat) (now : Int) (m : Message) : HubOp

/-- One step of the hub model. -/
def hubStep (s : HubState) : HubOp → Except String HubState
  | .register i now => processRegister s i now
  | .unregister i => processUnregister s i
  | .broadcast m =>
    match processBroadcast s m with
    | .error e => .error e
    | .ok (s', _) => .ok s'
  | .topicBroadcast t m =>
    match processBroadcastToSubscribers s t m with
    | .error e => .error e
    | .ok (s', _) => .ok s'
  | .clientSend i now m =>
    match clientSendMessage (s.pool i) now m with
    | .error e => .error e
    | .ok ch => .ok ⟨Function.update s.pool i { s.pool i with send := ch }, s.registry⟩

/-- Running a list of operations from a state. -/
def hubRun (s : HubState) (ops : List HubOp) : Except String HubState :=
  ops.foldlM hubStep s

/-- The result of the round trip of handleSubscription through the JSON
encoder: the Data value is marshalled and unmarshalled into a
Subscription. A JSON object decodes field-wise with absent fields left at
their zero values, JSON null leaves the target at its zero value, and any
other JSON value fails to decode into a struct. -/
def parseSubscription : MsgData → Option Subscription
  | .nilData => some ⟨"", [], []⟩
  | .clientIdMap _ => some ⟨"", [], []⟩
  | .sub s => some s
  | .raw _ => none

/-- handleSubscription at the level of the subscription set and of the
replies handed to Client.SendMessage: on decode failure an error reply;
otherwise only the topic of the decoded Subscription is written into the
subscription map (as the key of a true entry) and a subscribed
acknowledgement echoing the subscription is replied. -/
def handleSubscription (subs : List String) (m : Message) : List String × List Message :=
  match parseSubscription m.Data with
  | none => (subs, [⟨"error", "", .nilData, "Invalid subscription format", 0, ""⟩])
  | some sub =>
    (subsInsert subs sub.typ, [⟨"subscription", "subscribed", .sub sub, "", 0, ""⟩])

/-- handleUnsubscription: on decode failure an error reply; otherwise the
topic is deleted from the subscription map and an unsubscribed
acknowledgement is replied. -/
def handleUnsubscription (subs : List String) (m : Message) : List String × List Message :=
  match parseSubscription m.Data with
  | none => (subs, [⟨"error", "", .nilData, "Invalid unsubscription format", 0, ""⟩])
  | some sub =>
    (subs.filter (· ≠ sub.typ), [⟨"subscription", "unsubscribed", .sub sub, "", 0, ""⟩])

/-- handleMessage - dispatch on the typ field of a decoded envelope:
subscribe, unsubscribe, ping, and the default case that replies an
unknown-type error. Returns the new subscription set and the replies
handed to Client.SendMessage. -/
def handleMessage (subs : List String) (m : Message) : List String × List Message :=
  if m.typ = "subscribe" then handleSubscription subs m
  else if m.typ = "unsubscribe" then handleUnsubscription subs m
  else if m.typ = "ping" then (subs, [⟨"pong", "ping_response", .nilData, "", 0, ""⟩])
  else (subs, [⟨"error", "", .nilData, "Unknown message type", 0, ""⟩])

/-- One iteration of the loop body of readPump after a successful frame
read, given the outcome of decoding the frame into a Message: a decode
failure replies an invalid-format error and continues; a decoded message
goes through handleMessage and the loop continues. The Bool records
whether the loop continues (it always does on this path: only a transport
read error, handled before this point, breaks the loop). -/
def readPumpStep (subs : List String) (frame : Option Message) :
    List String × List Message × Bool :=
  match frame with
  | none => (subs, [⟨"error", "", .nilData, "Invalid message format", 0, ""⟩], true)
  | some m =>
    let (subs', replies) := handleMessage subs m
    (subs', replies, true)

/-- The read-deadline window of readPump, pongWait, in seconds. -/
def pongWaitSeconds : Nat := 60

/-- An inbound frame as seen by the deadline discipline of readPump: a
pong control frame (handled by the pong handler inside ReadMessage) or a
data frame carrying a payload (decoded or malformed). -/
inductive Frame where
  | pong : Frame
  | text (payload : Option Message) : Frame
deriving DecidableEq

/-- The read-deadline state transition of readPump for one inbound frame
arriving at instant t with current deadline dl: if the deadline passed
before the frame, the read fails and the client is evicted (none);
otherwise only a pong frame renews the deadline, through the pong handler
installed by SetPongHandler - a successful ReadMessage of any other frame
leaves the deadline untouched. -/
def readDeadlineStep (dl t : Nat) (f : Frame) : Option Nat :=
  if dl < t then none
  else
    match f with
    | .pong => some (t + pongWaitSeconds)
    | .text _ => some dl

/-- Running the deadline discipline over a timed trace of inbound frames;
none means the client was evicted by a deadline expiry. -/
def runReadDeadline (dl : Nat) : List (Nat × Frame) → Option Nat
  | [] => some dl
  | (t, f) :: rest =>
    match readDeadlineStep dl t f with
    | none => none
    | some dl' => runReadDeadline dl' rest

/-- A timed trace made only of pong frames, each arriving within the
deadline window current at its arrival. -/
def allPongsWithinWindow : Nat → List (Nat × Frame) → Bool
  | _, [] => true
  | dl, (t, f) :: rest =>
    decide (t ≤ dl) && decide (f = .pong) && allPongsWithinWindow (t + pongWaitSeconds) rest

/-- The initial hub state as built by NewHub (empty member map) over a
pool of fresh clients as built by WebSocketHandler. -/
def initState : HubState :=
  ⟨fun _ => freshClient "client_1" "anonymous", []⟩

/-- A domain event envelope used to fill a queue in concrete runs. -/
def fillMsg : Message := ⟨"market_data", "", .raw "x", "", 0, ""⟩

/-- The pong reply readPump sends (through Client.SendMessage) when the
client sends a ping envelope. -/
def pongReply : Message := ⟨"pong", "ping_response", .nilData, "", 0, ""⟩

/-- A concrete run: client 0 connects and registers (its queue then holds
the welcome message), 255 global broadcasts fill its queue to the capacity
256, then the client sends a ping frame, so its read pump answers through
Client.SendMessage with the queue full. -/
def slowClientTrace : List HubOp :=
  HubOp.register 0 0 ::
    (List.replicate 255 (HubOp.broadcast fillMsg) ++ [HubOp.clientSend 0 5 pongReply])

/-- Whether a run ended without a panic in a state where client i is still
in the member map of the hub while its send channel is closed. -/
def registeredWithClosedChan (r : Except String HubState) (i : Nat) : Bool :=
  match r with
  | .ok s => decide (i ∈ s.registry) && (s.pool i).send.closed
  | .error _ => false

/-- Whether a run ended in a Go panic carrying the given message. -/
def panickedWith (r : Except String HubState) (msg : String) : Bool :=
  match r with
  | .error e => e == msg
  | .ok _ => false

/-- An inbound ping envelope as a client would send it. -/
def inboundPing : Message := ⟨"ping", "", .nilData, "", 0, ""⟩

/-- An inbound envelope with an unknown kind. -/
def unknownKindMsg : Message := ⟨"weird", "", .raw "x", "", 0, ""⟩

/-- A client subscribed to the topic orders, with an open empty queue. -/
def ordersClient : Client := ⟨"client_1", "anonymous", ["orders"], ⟨[], false⟩⟩

/-- A two-client state: both clients registered, fresh open queues. -/
def twoFreshState : HubState :=
  ⟨fun _ => freshClient "client_1" "anonymous", [0, 1]⟩

/-- A two-client state where client 0 is subscribed to orders and client 1
is not subscribed to anything. -/
def mixedSubsState : HubState :=
  ⟨fun k => if k = 0 then ordersClient else freshClient "client_2" "anonymous", [0, 1]⟩

/-- A two-client state where both registered clients have the same
subscription set (orders) and identical queues. -/
def twoOrdersState : HubState :=
  ⟨fun _ => ordersClient, [0, 1]⟩

/-- A one-client state whose client carries an identity produced by
generateClientID, not yet registered. -/
def namedClientState : HubState :=
  ⟨fun _ => freshClient (generateClientID 7) "anonymous", []⟩

/-- A subscription to orders narrowed by an instrument filter list. -/
def subWithInstruments : Subscription := ⟨"orders", ["AAPL"], []⟩

/-- A subscription to orders narrowed by an account filter list. -/
def subWithAccounts : Subscription := ⟨"orders", [], ["acc1"]⟩

/-- A subscribe envelope carrying subWithInstruments. -/
def subscribeMsg1 : Message := ⟨"subscribe", "", .sub subWithInstruments, "", 0, ""⟩

/-- A subscribe envelope carrying subWithAccounts. -/
def subscribeMsg2 : Message := ⟨"subscribe", "", .sub subWithAccounts, "", 0, ""⟩

theorem chanTrySend_enq (ch : Chan) (m : Message) (hc : ch.closed = false)
    (hlt : ch.buf.length < queueCapacity) :
    chanTrySend ch m = .ok ({ ch with buf := ch.buf ++ [m] }, true) := by
  simp [chanTrySend, hc, hlt]

theorem chanTrySend_full (ch : Chan) (m : Message) (hc : ch.closed = false)
    (hge : ¬ ch.buf.length < queueCapacity) :
    chanTrySend ch m = .ok (ch, false) := by
  simp [chanTrySend, hc, hge]

theorem chanClose_open (ch : Chan) (hc : ch.closed = false) :
    chanClose ch = .ok { ch with closed := true } := by
  simp [chanClose, hc]

theorem evictOrEnqueue_enq (c : Client) (m : Message) (hc : c.send.closed = false)
    (hlt : c.send.buf.length < queueCapacity) :
    evictOrEnqueue c m =
      .ok ({ c with send := { c.send with buf := c.send.buf ++ [m] } }, true) := by
  simp [evictOrEnqueue, chanTrySend_enq c.send m hc hlt]

theorem evictOrEnqueue_evict (c : Client) (m : Message) (hc : c.send.closed = false)
    (hge : ¬ c.send.buf.length < queueCapacity) :
    evictOrEnqueue c m =
      .ok ({ c with send := { c.send with closed := true } }, false) := by
  simp [evictOrEnqueue, chanTrySend_full c.send m hc hge, chanClose_open c.send hc]

/-- Worker lemma for the broadcast case of Hub.Run: iterating the
enqueue-or-evict body over a duplicate-free list of registered clients
with open channels makes one attempt per listed client, treats each
client according to its own queue alone (space: the message is appended
and the client stays registered; full: the channel is closed and the
client leaves the member map), and leaves every other client untouched. -/
theorem broadcastAux_spec (m : Message) (l : List Nat) :
    ∀ (s : HubState) (n : Nat), l.Nodup →
      (∀ i ∈ l, (s.pool i).send.closed = false) →
      (∀ i ∈ l, i ∈ s.registry) →
      ∃ s', broadcastAux m l s n = .ok (s', n + l.length) ∧
        (∀ i ∈ l,
          ((s.pool i).send.buf.length < queueCapacity →
            s'.pool i =
              { s.pool i with
                send := { (s.pool i).send with buf := (s.pool i).send.buf ++ [m] } } ∧
            i ∈ s'.registry) ∧
          (¬ (s.pool i).send.buf.length < queueCapacity →
            s'.pool i = { s.pool i with send := { (s.pool i).send with closed := true } } ∧
            i ∉ s'.registry)) ∧
        (∀ j, j ∉ l → s'.pool j = s.pool j ∧ (j ∈ s'.registry ↔ j ∈ s.registry)) := by
  induction l with
  | nil =>
    intro s n _ _ _
    exact ⟨s, by simp [broadcastAux], by simp, fun j _ => ⟨rfl, Iff.rfl⟩⟩
  | cons i rest ih =>
    intro s n hnd hopen hmem
    have hnotin : i ∉ rest := (List.nodup_cons.mp hnd).1
    have hndrest : rest.Nodup := (List.nodup_cons.mp hnd).2
    have hci : (s.pool i).send.closed = false := hopen i (List.mem_cons_self i rest)
    have hmi : i ∈ s.registry := hmem i (List.mem_cons_self i rest)
    by_cases hlt : (s.pool i).send.buf.length < queueCapacity
    · refine ?_
      have heval := evictOrEnqueue_enq (s.pool i) m hci hlt
      set c1 : Client :=
        { s.pool i with send := { (s.pool i).send with buf := (s.pool i).send.buf ++ [m] } }
        with hc1
      set s1 : HubState := ⟨Function.update s.pool i c1, s.registry⟩ with hs1
      have hpool : ∀ k, k ≠ i → s1.pool k = s.pool k := by
        intro k hk
        simp [hs1, Function.update_noteq hk]
      have hpi : s1.pool i = c1 := by simp [hs1]
      obtain ⟨s'', hrun, hin, hout⟩ :=
        ih s1 (n + 1) hndrest
          (fun k hk => by
            rw [hpool k (fun h => hnotin (h ▸ hk))]
            exact hopen k (List.mem_cons_of_mem _ hk))
          (fun k hk => by
            rw [hs1]
            exact hmem k (List.mem_cons_of_mem _ hk))
      refine ⟨s'', ?_, ?_, ?_⟩
      · have hstep : broadcastAux m (i :: rest) s n = broadcastAux m rest s1 (n + 1) := by
          rw [hs1, hc1]
          simp [broadcastAux, heval]
        have harith : n + (i :: rest).length = (n + 1) + rest.length := by
          simp [List.length_cons]
          omega
        rw [hstep, harith]
        exact hrun
      · intro k hk
        rcases List.mem_cons.mp hk with hk | hk
        · subst hk
          refine ⟨fun _ => ?_, fun hcontra => absurd hlt hcontra⟩
          have h1 : s''.pool k = s1.pool k := (hout k hnotin).1
          refine ⟨by rw [h1, hpi, hc1], ?_⟩
          have h2 := (hout k hnotin).2
          rw [h2, hs1]
          exact hmi
        · have hki : k ≠ i := fun h => hnotin (h ▸ hk)
          have h := hin k hk
          rw [hpool k hki] at h
          exact h
      · intro j hj
        have hji : j ≠ i := fun h => hj (h ▸ List.mem_cons_self i rest)
        have hjrest : j ∉ rest := fun h => hj (List.mem_cons_of_mem _ h)
        obtain ⟨hp, hr⟩ := hout j hjrest
        refine ⟨by rw [hp, hpool j hji], ?_⟩
        rw [hr, hs1]
    · refine ?_
      have heval := evictOrEnqueue_evict (s.pool i) m hci hlt
      set c1 : Client := { s.pool i with send := { (s.pool i).send with closed := true } }
        with hc1
      set s1 : HubState := ⟨Function.update s.pool i c1, s.registry.filter (· ≠ i)⟩ with hs1
      have hpool : ∀ k, k ≠ i → s1.pool k = s.pool k := by
        intro k hk
        simp [hs1, Function.update_noteq hk]
      have hpi : s1.pool i = c1 := by simp [hs1]
      have hreg : ∀ k, k ≠ i → (k ∈ s1.registry ↔ k ∈ s.registry) := by
        intro k hk
        simp [hs1, List.mem_filter, hk]
      obtain ⟨s'', hrun, hin, hout⟩ :=
        ih s1 (n + 1) hndrest
          (fun k hk => by
            rw [hpool k (fun h => hnotin (h ▸ hk))]
            exact hopen k (List.mem_cons_of_mem _ hk))
          (fun k hk => by
            have hki : k ≠ i := fun h => hnotin (h ▸ hk)
            exact (hreg k hki).mpr (hmem k (List.mem_cons_of_mem _ hk)))
      refine ⟨s'', ?_, ?_, ?_⟩
      · have hstep : broadcastAux m (i :: rest) s n = broadcastAux m rest s1 (n + 1) := by
          rw [hs1, hc1]
          simp [broadcastAux, heval]
        have harith : n + (i :: rest).length = (n + 1) + rest.length := by
          simp [List.length_cons]
          omega
        rw [hstep, harith]
        exact hrun
      · intro k hk
        rcases List.mem_cons.mp hk with hk | hk
        · subst hk
          refine ⟨fun hcontra => absurd hcontra hlt, fun _ => ?_⟩
          have h1 : s''.pool k = s1.pool k := (hout k hnotin).1
          refine ⟨by rw [h1, hpi, hc1], ?_⟩
          have h2 := (hout k hnotin).2
          rw [h2]
          simp [hs1, List.mem_filter]
        · have hki : k ≠ i := fun h => hnotin (h ▸ hk)
          have h := hin k hk
          rw [hpool k hki] at h
          exact h
      · intro j hj
        have hji : j ≠ i := fun h => hj (h ▸ List.mem_cons_self i rest)
        have hjrest : j ∉ rest := fun h => hj (List.mem_cons_of_mem _ h)
        obtain ⟨hp, hr⟩ := hout j hjrest
        refine ⟨by rw [hp, hpool j hji], ?_⟩
        rw [hr]
        exact hreg j hji

/-- Worker lemma for Hub.BroadcastToSubscribers: iterating its body over a
duplicate-free list of registered clients touches a client exactly when
its subscription map contains the topic; a touched client with space gets
the message appended and stays registered, a touched full one is evicted,
an untouched one keeps its state and its membership, and clients outside
the list are untouched. -/
theorem broadcastSubsAux_spec (t : String) (m : Message) (l : List Nat) :
    ∀ (s : HubState) (n : Nat), l.Nodup →
      (∀ i ∈ l, (s.pool i).subscriptions.contains t = true → (s.pool i).send.closed = false) →
      (∀ i ∈ l, i ∈ s.registry) →
      ∃ s' k, broadcastSubsAux t m l s n = .ok (s', k) ∧
        (∀ i ∈ l,
          ((s.pool i).subscriptions.contains t = false →
            s'.pool i = s.pool i ∧ i ∈ s'.registry) ∧
          ((s.pool i).subscriptions.contains t = true →
            ((s.pool i).send.buf.length < queueCapacity →
              s'.pool i =
                { s.pool i with
                  send := { (s.pool i).send with buf := (s.pool i).send.buf ++ [m] } } ∧
              i ∈ s'.registry) ∧
            (¬ (s.pool i).send.buf.length < queueCapacity →
              s'.pool i =
                { s.pool i with send := { (s.pool i).send with closed := true } } ∧
              i ∉ s'.registry))) ∧
        (∀ j, j ∉ l → s'.pool j = s.pool j ∧ (j ∈ s'.registry ↔ j ∈ s.registry)) := by
  induction l with
  | nil =>
    intro s n _ _ _
    exact ⟨s, n, by simp [broadcastSubsAux], by simp, fun j _ => ⟨rfl, Iff.rfl⟩⟩
  | cons i rest ih =>
    intro s n hnd hopen hmem
    have hnotin : i ∉ rest := (List.nodup_cons.mp hnd).1
    have hndrest : rest.Nodup := (List.nodup_cons.mp hnd).2
    have hmi : i ∈ s.registry := hmem i (List.mem_cons_self i rest)
    by_cases hsubi : (s.pool i).subscriptions.contains t = true
    · have hsubi' : t ∈ (s.pool i).subscriptions := by simpa using hsubi
      have hnotf : ¬ ((s.pool i).subscriptions.contains t = false) := by simp [hsubi']
      have hci : (s.pool i).send.closed = false := hopen i (List.mem_cons_self i rest) hsubi
      by_cases hlt : (s.pool i).send.buf.length < queueCapacity
      · have heval := evictOrEnqueue_enq (s.pool i) m hci hlt
        set c1 : Client :=
          { s.pool i with send := { (s.pool i).send with buf := (s.pool i).send.buf ++ [m] } }
          with hc1
        set s1 : HubState := ⟨Function.update s.pool i c1, s.registry⟩ with hs1
        have hpool : ∀ k, k ≠ i → s1.pool k = s.pool k := by
          intro k hk
          simp [hs1, Function.update_noteq hk]
        have hpi : s1.pool i = c1 := by simp [hs1]
        obtain ⟨s'', k'', hrun, hin, hout⟩ :=
          ih s1 (n + 1) hndrest
            (fun k hk hks => by
              rw [hpool k (fun h => hnotin (h ▸ hk))]
              refine hopen k (List.mem_cons_of_mem _ hk) ?_
              rw [← hpool k (fun h => hnotin (h ▸ hk))]
              exact hks)
            (fun k hk => by
              rw [hs1]
              exact hmem k (List.mem_cons_of_mem _ hk))
        refine ⟨s'', k'', ?_, ?_, ?_⟩
        · have hstep :
              broadcastSubsAux t m (i :: rest) s n = broadcastSubsAux t m rest s1 (n + 1) := by
            rw [hs1, hc1]
            simp [broadcastSubsAux, hsubi', heval]
          rw [hstep]
          exact hrun
        · intro k hk
          rcases List.mem_cons.mp hk with hk | hk
          · subst hk
            refine ⟨fun hf => absurd hf hnotf, fun _ => ?_⟩
            refine ⟨fun _ => ?_, fun hcontra => absurd hlt hcontra⟩
            have h1 : s''.pool k = s1.pool k := (hout k hnotin).1
            refine ⟨by rw [h1, hpi, hc1], ?_⟩
            have h2 := (hout k hnotin).2
            rw [h2, hs1]
            exact hmi
          · have hki : k ≠ i := fun h => hnotin (h ▸ hk)
            have h := hin k hk
            rw [hpool k hki] at h
            exact h
        · intro j hj
          have hji : j ≠ i := fun h => hj (h ▸ List.mem_cons_self i rest)
          have hjrest : j ∉ rest := fun h => hj (List.mem_cons_of_mem _ h)
          obtain ⟨hp, hr⟩ := hout j hjrest
          refine ⟨by rw [hp, hpool j hji], ?_⟩
          rw [hr, hs1]
      · have heval := evictOrEnqueue_evict (s.pool i) m hci hlt
        set c1 : Client := { s.pool i with send := { (s.pool i).send with closed := true } }
          with hc1
        set s1 : HubState := ⟨Function.update s.pool i c1, s.registry.filter (· ≠ i)⟩ with hs1
        have hpool : ∀ k, k ≠ i → s1.pool k = s.pool k := by
          intro k hk
          simp [hs1, Function.update_noteq hk]
        have hpi : s1.pool i = c1 := by simp [hs1]
        have hreg : ∀ k, k ≠ i → (k ∈ s1.registry ↔ k ∈ s.registry) := by
          intro k hk
          simp [hs1, List.mem_filter, hk]
        obtain ⟨s'', k'', hrun, hin, hout⟩ :=
          ih s1 (n + 1) hndrest
            (fun k hk hks => by
              rw [hpool k (fun h => hnotin (h ▸ hk))]
              refine hopen k (List.mem_cons_of_mem _ hk) ?_
              rw [← hpool k (fun h => hnotin (h ▸ hk))]
              exact hks)
            (fun k hk => by
              have hki : k ≠ i := fun h => hnotin (h ▸ hk)
              exact (hreg k hki).mpr (hmem k (List.mem_cons_of_mem _ hk)))
        refine ⟨s'', k'', ?_, ?_, ?_⟩
        · have hstep :
              broadcastSubsAux t m (i :: rest) s n = broadcastSubsAux t m rest s1 (n + 1) := by
            rw [hs1, hc1]
            simp [broadcastSubsAux, hsubi', heval]
          rw [hstep]
          exact hrun
        · intro k hk
          rcases List.mem_cons.mp hk with hk | hk
          · subst hk
            refine ⟨fun hf => absurd hf hnotf, fun _ => ?_⟩
            refine ⟨fun hcontra => absurd hcontra hlt, fun _ => ?_⟩
            have h1 : s''.pool k = s1.pool k := (hout k hnotin).1
            refine ⟨by rw [h1, hpi, hc1], ?_⟩
            have h2 := (hout k hnotin).2
            rw [h2]
            simp [hs1, List.mem_filter]
          · have hki : k ≠ i := fun h => hnotin (h ▸ hk)
            have h := hin k hk
            rw [hpool k hki] at h
            exact h
        · intro j hj
          have hji : j ≠ i := fun h => hj (h ▸ List.mem_cons_self i rest)
          have hjrest : j ∉ rest := fun h => hj (List.mem_cons_of_mem _ h)
          obtain ⟨hp, hr⟩ := hout j hjrest
          refine ⟨by rw [hp, hpool j hji], ?_⟩
          rw [hr]
          exact hreg j hji
    · have hsubf : (s.pool i).subscriptions.contains t = false := by
        cases h : (s.pool i).subscriptions.contains t
        · rfl
        · exact absurd h hsubi
      have hsubf' : t ∉ (s.pool i).subscriptions := by simpa using hsubf
      obtain ⟨s'', k'', hrun, hin, hout⟩ :=
        ih s n hndrest
          (fun k hk hks => hopen k (List.mem_cons_of_mem _ hk) hks)
          (fun k hk => hmem k (List.mem_cons_of_mem _ hk))
      refine ⟨s'', k'', ?_, ?_, ?_⟩
      · have hstep :
            broadcastSubsAux t m (i :: rest) s n = broadcastSubsAux t m rest s n := by
          simp [broadcastSubsAux, hsubf']
        rw [hstep]
        exact hrun
      · intro k hk
        rcases List.mem_cons.mp hk with hk | hk
        · subst hk
          refine ⟨fun _ => ?_, fun hcontra => absurd hcontra (by simp [hsubf'])⟩
          obtain ⟨hp, hr⟩ := hout k hnotin
          exact ⟨hp, hr.mpr hmi⟩
        · exact hin k hk
      · intro j hj
        have hjrest : j ∉ rest := fun h => hj (List.mem_cons_of_mem _ h)
        exact hout j hjrest

/-- The identity produced by generateClientID is never the empty string. -/
theorem generateClientID_ne_empty (nanos : Int) : generateClientID nanos ≠ "" := by
  intro h
  have hlen := congrArg String.length h
  simp [generateClientID, String.length_append] at hlen
  exact absurd hlen.1 (by decide)

/-- C9: for every envelope a client sends through Client.SendMessage, the
outgoing envelope has the ClientID field equal to the identity of the
client and the Timestamp field equal to the send instant, whatever the
caller put there, while the kind, Action, Data and Error fields are
passed through unchanged. -/
theorem sendMessage_stamps_identity_and_time (c : Client) (now : Int) (m : Message) :
    (sendMessageStamp c now m).ClientID = c.clientID ∧
    (sendMessageStamp c now m).Timestamp = now ∧
    (sendMessageStamp c now m).typ = m.typ ∧
    (sendMessageStamp c now m).Action = m.Action ∧
    (sendMessageStamp c now m).Data = m.Data ∧
    (sendMessageStamp c now m).Error = m.Error :=
  ⟨rfl, rfl, rfl, rfl, rfl, rfl⟩

/-- C7: the unregister case of Hub.Run is idempotent: processing a second
unregister event for the same client right after the first is observably
a no-op - the composite run equals the single run on every hub state,
for the member map, the send channel of the client and all other
clients. -/
theorem unregister_idempotent (s : HubState) (i : Nat) :
    (processUnregister s i >>= fun s2 => processUnregister s2 i) = processUnregister s i := by
  by_cases h : i ∈ s.registry
  · rw [processUnregister, if_pos h]
    cases hcc : chanClose (s.pool i).send with
    | error e => rfl
    | ok ch =>
      have hni :
          i ∉ (s.registry.filter (· ≠ i)) := by simp [List.mem_filter]
      show processUnregister
          ⟨Function.update s.pool i { s.pool i with send := ch }, s.registry.filter (· ≠ i)⟩
          i = _
      rw [processUnregister, if_neg hni]
  · rw [processUnregister, if_neg h]
    show processUnregister s i = _
    rw [processUnregister, if_neg h]

set_option maxRecDepth 10000

/-- C1: the claimed invariant (a client is in the member map of the hub
exactly when its send channel is open) is broken by the code: running the
hub from its initial state through the trace that registers client 0,
fills its queue to the capacity 256 with broadcasts and then lets its
read pump answer a ping through Client.SendMessage, ends without a panic
in a state where client 0 is still registered while its send channel was
closed (Client.SendMessage closes a full channel without removing the
client from the member map). -/
theorem sendMessage_breaks_registry_invariant :
    registeredWithClosedChan (hubRun initState slowClientTrace) 0 = true := by decide

/-- C4: the hub subsystem can panic, and so be fatal to the process: in
the run of C1 the send channel of registered client 0 is already closed,
so the following unregister event (the read pump of a dead client always
sends one) closes the channel a second time, which in Go panics; a
further broadcast would instead panic by sending on the closed channel.
The claim that no operation panics and every channel is closed at most
once is violated. -/
theorem unregister_after_sendMessage_close_panics :
    panickedWith (hubRun initState (slowClientTrace ++ [HubOp.unregister 0]))
      "close of closed channel" = true := by decide

/-- C3 counterexample: a frame that is not a pong does not renew the read
deadline in readPump (only the pong handler does); a client that keeps
sending ping envelopes well inside the 60 second window (at instants 50
and 100, starting deadline 60) is nonetheless evicted, against the claim
that every inbound frame renews the deadline to its arrival instant plus
the timeout. -/
theorem nonpong_frame_keeps_deadline :
    readDeadlineStep 60 50 (.text (some inboundPing)) = some 60 ∧
    (some 60 ≠ some (50 + pongWaitSeconds)) ∧
    runReadDeadline 60 [(50, .text (some inboundPing)), (100, .text (some inboundPing))] =
      none := by decide

/-- A trace of pong frames, each inside the current window, never ends in
an eviction. -/
theorem pongs_keep_alive :
    ∀ (tr : List (Nat × Frame)) (dl : Nat),
      allPongsWithinWindow dl tr = true → runReadDeadline dl tr ≠ none := by
  intro tr
  induction tr with
  | nil =>
    intro dl _
    simp [runReadDeadline]
  | cons p rest ih =>
    intro dl h
    obtain ⟨t, f⟩ := p
    rw [allPongsWithinWindow] at h
    simp only [Bool.and_eq_true, decide_eq_true_eq] at h
    obtain ⟨⟨ht, hf⟩, hrest⟩ := h
    subst hf
    have hnlt : ¬ dl < t := Nat.not_lt.mpr ht
    simp only [runReadDeadline, readDeadlineStep, if_neg hnlt]
    exact ih (t + pongWaitSeconds) hrest

/-- C3 amended: after a successful receipt, only a pong frame renews the
read deadline of readPump to its arrival instant plus the 60 second
window; any other frame leaves the deadline unchanged; a frame arriving
past the deadline means eviction; and a client whose pong frames all
arrive within the current window is never evicted purely due to
silence. -/
theorem only_pong_renews_deadline (dl t : Nat) (p : Option Message)
    (tr : List (Nat × Frame)) (ht : t ≤ dl) (htr : allPongsWithinWindow dl tr = true) :
    readDeadlineStep dl t .pong = some (t + pongWaitSeconds) ∧
    readDeadlineStep dl t (.text p) = some dl ∧
    (∀ u, dl < u → ∀ f, readDeadlineStep dl u f = none) ∧
    runReadDeadline dl tr ≠ none := by
  have hnlt : ¬ dl < t := Nat.not_lt.mpr ht
  refine ⟨?_, ?_, ?_, pongs_keep_alive tr dl htr⟩
  · simp [readDeadlineStep, hnlt]
  · simp [readDeadlineStep, hnlt]
  · intro u hu f
    simp [readDeadlineStep, hu]

/-- Witness for the amended C3 theorem at a concrete run: deadline 60, a
pong at instant 50, and a pong trace at instants 50 and 100 that stays
alive. -/
theorem only_pong_renews_deadline_witness :
    readDeadlineStep 60 50 .pong = some (50 + pongWaitSeconds) ∧
    readDeadlineStep 60 50 (.text (some inboundPing)) = some 60 ∧
    (∀ u, 60 < u → ∀ f, readDeadlineStep 60 u f = none) ∧
    runReadDeadline 60 [(50, Frame.pong), (100, Frame.pong)] ≠ none :=
  only_pong_renews_deadline 60 50 (some inboundPing)
    [(50, Frame.pong), (100, Frame.pong)] (by decide) (by decide)

/-- C2: processing one broadcast while N clients are registered with open
channels makes exactly N non-blocking enqueue attempts, one per
registered client; a client with a full queue is evicted exactly as by
unregister (removed from the member map, channel closed) without
blocking or retrying, a client with space gets the message appended and
stays, each outcome depending on that client and its queue alone, and
clients outside the member map are untouched. -/
theorem broadcast_one_attempt_per_client (s : HubState) (m : Message)
    (hnd : s.registry.Nodup)
    (hopen : ∀ i ∈ s.registry, (s.pool i).send.closed = false) :
    ∃ s', processBroadcast s m = .ok (s', s.registry.length) ∧
      (∀ i ∈ s.registry,
        ((s.pool i).send.buf.length < queueCapacity →
          s'.pool i =
            { s.pool i with
              send := { (s.pool i).send with buf := (s.pool i).send.buf ++ [m] } } ∧
          i ∈ s'.registry) ∧
        (¬ (s.pool i).send.buf.length < queueCapacity →
          s'.pool i = { s.pool i with send := { (s.pool i).send with closed := true } } ∧
          i ∉ s'.registry)) ∧
      (∀ j, j ∉ s.registry → s'.pool j = s.pool j ∧ j ∉ s'.registry) := by
  obtain ⟨s', hrun, hin, hout⟩ :=
    broadcastAux_spec m s.registry s 0 hnd hopen (fun i h => h)
  exact ⟨s', by simpa [processBroadcast] using hrun, hin,
    fun j hj => ⟨(hout j hj).1, fun hc => hj ((hout j hj).2.mp hc)⟩⟩

/-- Witness for C2 at a concrete state with two registered fresh
clients. -/
theorem broadcast_one_attempt_per_client_witness :
    ∃ s', processBroadcast twoFreshState fillMsg = .ok (s', twoFreshState.registry.length) ∧
      (∀ i ∈ twoFreshState.registry,
        ((twoFreshState.pool i).send.buf.length < queueCapacity →
          s'.pool i =
            { twoFreshState.pool i with
              send :=
                { (twoFreshState.pool i).send with
                  buf := (twoFreshState.pool i).send.buf ++ [fillMsg] } } ∧
          i ∈ s'.registry) ∧
        (¬ (twoFreshState.pool i).send.buf.length < queueCapacity →
          s'.pool i =
            { twoFreshState.pool i with
              send := { (twoFreshState.pool i).send with closed := true } } ∧
          i ∉ s'.registry)) ∧
      (∀ j, j ∉ twoFreshState.registry → s'.pool j = twoFreshState.pool j ∧ j ∉ s'.registry) :=
  broadcast_one_attempt_per_client twoFreshState fillMsg (by decide) (by decide)

/-- C5: Hub.BroadcastToSubscribers enqueues the envelope exactly to the
registered clients whose subscription set contains the topic (appending
it when there is space, evicting on a full queue), leaves every
registered client whose set does not contain the topic untouched and
registered, and leaves clients outside the member map untouched. -/
theorem topicBroadcast_reaches_exactly_subscribers (s : HubState) (t : String) (m : Message)
    (hnd : s.registry.Nodup)
    (hopen : ∀ i ∈ s.registry,
      (s.pool i).subscriptions.contains t = true → (s.pool i).send.closed = false) :
    ∃ s' n, processBroadcastToSubscribers s t m = .ok (s', n) ∧
      (∀ i ∈ s.registry,
        ((s.pool i).subscriptions.contains t = false →
          s'.pool i = s.pool i ∧ i ∈ s'.registry) ∧
        ((s.pool i).subscriptions.contains t = true →
          ((s.pool i).send.buf.length < queueCapacity →
            s'.pool i =
              { s.pool i with
                send := { (s.pool i).send with buf := (s.pool i).send.buf ++ [m] } } ∧
            i ∈ s'.registry) ∧
          (¬ (s.pool i).send.buf.length < queueCapacity →
            s'.pool i =
              { s.pool i with send := { (s.pool i).send with closed := true } } ∧
            i ∉ s'.registry))) ∧
      (∀ j, j ∉ s.registry → s'.pool j = s.pool j) := by
  obtain ⟨s', n, hrun, hin, hout⟩ :=
    broadcastSubsAux_spec t m s.registry s 0 hnd hopen (fun i h => h)
  exact ⟨s', n, by simpa [processBroadcastToSubscribers] using hrun, hin,
    fun j hj => (hout j hj).1⟩

/-- Witness for C5 at a concrete state where registered client 0 is
subscribed to orders and registered client 1 is not. -/
theorem topicBroadcast_reaches_exactly_subscribers_witness :
    ∃ s' n, processBroadcastToSubscribers mixedSubsState "orders" fillMsg = .ok (s', n) ∧
      (∀ i ∈ mixedSubsState.registry,
        ((mixedSubsState.pool i).subscriptions.contains "orders" = false →
          s'.pool i = mixedSubsState.pool i ∧ i ∈ s'.registry) ∧
        ((mixedSubsState.pool i).subscriptions.contains "orders" = true →
          ((mixedSubsState.pool i).send.buf.length < queueCapacity →
            s'.pool i =
              { mixedSubsState.pool i with
                send :=
                  { (mixedSubsState.pool i).send with
                    buf := (mixedSubsState.pool i).send.buf ++ [fillMsg] } } ∧
            i ∈ s'.registry) ∧
          (¬ (mixedSubsState.pool i).send.buf.length < queueCapacity →
            s'.pool i =
              { mixedSubsState.pool i with
                send := { (mixedSubsState.pool i).send with closed := true } } ∧
            i ∉ s'.registry))) ∧
      (∀ j, j ∉ mixedSubsState.registry → s'.pool j = mixedSubsState.pool j) :=
  topicBroadcast_reaches_exactly_subscribers mixedSubsState "orders" fillMsg
    (by decide) (by decide)

/-- C8: processing a registration event puts the client into the member
map and pushes onto the queue of that one client a welcome envelope of
kind system with action connected, carrying in its payload and ClientID
field the non-empty identity the client got from generateClientID; no
other client is touched. -/
theorem register_pushes_welcome (s : HubState) (i : Nat) (now nanos : Int)
    (hc : (s.pool i).send.closed = false)
    (hlt : (s.pool i).send.buf.length < queueCapacity)
    (hcid : (s.pool i).clientID = generateClientID nanos) :
    ∃ s', processRegister s i now = .ok s' ∧ i ∈ s'.registry ∧
      s'.pool i =
        { s.pool i with
          send :=
            { (s.pool i).send with
              buf :=
                (s.pool i).send.buf ++
                  [sendMessageStamp (s.pool i) now (welcomeMsg (s.pool i) now)] } } ∧
      (sendMessageStamp (s.pool i) now (welcomeMsg (s.pool i) now)).typ = "system" ∧
      (sendMessageStamp (s.pool i) now (welcomeMsg (s.pool i) now)).Action = "connected" ∧
      (sendMessageStamp (s.pool i) now (welcomeMsg (s.pool i) now)).Data =
        .clientIdMap (s.pool i).clientID ∧
      (sendMessageStamp (s.pool i) now (welcomeMsg (s.pool i) now)).ClientID =
        (s.pool i).clientID ∧
      (s.pool i).clientID ≠ "" ∧
      (∀ j, j ≠ i → s'.pool j = s.pool j ∧ (j ∈ s'.registry ↔ j ∈ s.registry)) := by
  have hsend : clientSendMessage (s.pool i) now (welcomeMsg (s.pool i) now) =
      .ok { (s.pool i).send with
        buf :=
          (s.pool i).send.buf ++
            [sendMessageStamp (s.pool i) now (welcomeMsg (s.pool i) now)] } := by
    simp [clientSendMessage,
      chanTrySend_enq (s.pool i).send (sendMessageStamp (s.pool i) now (welcomeMsg (s.pool i) now)) hc hlt]
  have hreg : processRegister s i now =
      .ok ⟨Function.update s.pool i
        { s.pool i with
          send :=
            { (s.pool i).send with
              buf :=
                (s.pool i).send.buf ++
                  [sendMessageStamp (s.pool i) now (welcomeMsg (s.pool i) now)] } },
        registryInsert s.registry i⟩ := by
    simp [processRegister, hsend]
  refine ⟨_, hreg, ?_, ?_, rfl, rfl, rfl, rfl, ?_, ?_⟩
  · show i ∈ registryInsert s.registry i
    by_cases h : i ∈ s.registry
    · simp [registryInsert, h]
    · simp [registryInsert, h]
  · exact Function.update_same i _ s.pool
  · rw [hcid]
    exact generateClientID_ne_empty nanos
  · intro j hji
    refine ⟨Function.update_noteq hji _ s.pool, ?_⟩
    show j ∈ registryInsert s.registry i ↔ j ∈ s.registry
    by_cases h : i ∈ s.registry
    · simp [registryInsert, h]
    · simp [registryInsert, h, hji]

/-- Witness for C8 at a concrete unregistered client whose identity came
from generateClientID. -/
theorem register_pushes_welcome_witness :
    ∃ s', processRegister namedClientState 0 0 = .ok s' ∧ 0 ∈ s'.registry ∧
      s'.pool 0 =
        { namedClientState.pool 0 with
          send :=
            { (namedClientState.pool 0).send with
              buf :=
                (namedClientState.pool 0).send.buf ++
                  [sendMessageStamp (namedClientState.pool 0) 0
                    (welcomeMsg (namedClientState.pool 0) 0)] } } ∧
      (sendMessageStamp (namedClientState.pool 0) 0
        (welcomeMsg (namedClientState.pool 0) 0)).typ = "system" ∧
      (sendMessageStamp (namedClientState.pool 0) 0
        (welcomeMsg (namedClientState.pool 0) 0)).Action = "connected" ∧
      (sendMessageStamp (namedClientState.pool 0) 0
        (welcomeMsg (namedClientState.pool 0) 0)).Data =
        .clientIdMap (namedClientState.pool 0).clientID ∧
      (sendMessageStamp (namedClientState.pool 0) 0
        (welcomeMsg (namedClientState.pool 0) 0)).ClientID =
        (namedClientState.pool 0).clientID ∧
      (namedClientState.pool 0).clientID ≠ "" ∧
      (∀ j, j ≠ 0 → s'.pool j = namedClientState.pool j ∧
        (j ∈ s'.registry ↔ j ∈ namedClientState.registry)) :=
  register_pushes_welcome namedClientState 0 0 7 (by decide) (by decide) rfl

/-- C6: a frame that fails to decode, and a decoded envelope whose kind
is none of subscribe, unsubscribe and ping, make readPump hand the
client an error envelope with a non-empty description and continue the
loop, with the subscription set unchanged. -/
theorem bad_frame_replies_error_and_continues (subs : List String) (fr : Option Message)
    (hbad : ∀ m, fr = some m →
      m.typ ≠ "subscribe" ∧ m.typ ≠ "unsubscribe" ∧ m.typ ≠ "ping") :
    (readPumpStep subs fr).2.2 = true ∧
    (readPumpStep subs fr).1 = subs ∧
    ∃ e, (readPumpStep subs fr).2.1 = [e] ∧ e.typ = "error" ∧ e.Error ≠ "" := by
  cases fr with
  | none =>
    exact ⟨rfl, rfl, ⟨"error", "", .nilData, "Invalid message format", 0, ""⟩, rfl, rfl,
      by decide⟩
  | some m =>
    obtain ⟨h1, h2, h3⟩ := hbad m rfl
    have hstep : readPumpStep subs (some m) =
        (subs, [⟨"error", "", .nilData, "Unknown message type", 0, ""⟩], true) := by
      simp [readPumpStep, handleMessage, h1, h2, h3]
    rw [hstep]
    exact ⟨rfl, rfl, _, rfl, rfl, by decide⟩

/-- Witness for C6 at a decoded envelope of an unknown kind against a
subscription set holding orders. -/
theorem bad_frame_replies_error_and_continues_witness :
    (readPumpStep ["orders"] (some unknownKindMsg)).2.2 = true ∧
    (readPumpStep ["orders"] (some unknownKindMsg)).1 = ["orders"] ∧
    ∃ e, (readPumpStep ["orders"] (some unknownKindMsg)).2.1 = [e] ∧
      e.typ = "error" ∧ e.Error ≠ "" :=
  bad_frame_replies_error_and_continues ["orders"] (some unknownKindMsg)
    (fun m hm => by cases hm; exact ⟨by decide, by decide, by decide⟩)

/-- C10: handleSubscription records only the topic of the decoded
Subscription as a key of the subscription map, discarding the
Instruments and AccountIDs filter lists, so two subscribe requests that
differ only in those lists produce the same subscription set; and the
delivery of Hub.BroadcastToSubscribers to a client depends only on its
subscription set and queue, so two registered clients with the same set
and the same queue get the same messages and the same fate. -/
theorem subscribe_filters_discarded (subs : List String) (sub1 sub2 : Subscription)
    (hty : sub1.typ = sub2.typ) (m1 m2 : Message)
    (h1 : m1.Data = .sub sub1) (h2 : m2.Data = .sub sub2)
    (s : HubState) (t : String) (em : Message) (i j : Nat)
    (hnd : s.registry.Nodup) (hi : i ∈ s.registry) (hj : j ∈ s.registry)
    (hsub : (s.pool i).subscriptions = (s.pool j).subscriptions)
    (hch : (s.pool i).send = (s.pool j).send)
    (hopen : ∀ k ∈ s.registry,
      (s.pool k).subscriptions.contains t = true → (s.pool k).send.closed = false) :
    (handleSubscription subs m1).1 = (handleSubscription subs m2).1 ∧
    ∃ s' n, processBroadcastToSubscribers s t em = .ok (s', n) ∧
      (s'.pool i).send = (s'.pool j).send ∧ (i ∈ s'.registry ↔ j ∈ s'.registry) := by
  constructor
  · simp [handleSubscription, h1, h2, parseSubscription, hty]
  · obtain ⟨s', n, hrun, hin, hout⟩ :=
      broadcastSubsAux_spec t em s.registry s 0 hnd hopen (fun a h => h)
    have hmain : (s'.pool i).send = (s'.pool j).send ∧
        (i ∈ s'.registry ↔ j ∈ s'.registry) := by
      by_cases hst : (s.pool i).subscriptions.contains t = true
      · have hstj : (s.pool j).subscriptions.contains t = true := by
          rw [← hsub]
          exact hst
        by_cases hlt : (s.pool i).send.buf.length < queueCapacity
        · have hltj : (s.pool j).send.buf.length < queueCapacity := by
            rw [← hch]
            exact hlt
          obtain ⟨hpi, hmi⟩ := ((hin i hi).2 hst).1 hlt
          obtain ⟨hpj, hmj⟩ := ((hin j hj).2 hstj).1 hltj
          exact ⟨by simp [hpi, hpj, hch], by simp [hmi, hmj]⟩
        · have hltj : ¬ (s.pool j).send.buf.length < queueCapacity := by
            rw [← hch]
            exact hlt
          obtain ⟨hpi, hmi⟩ := ((hin i hi).2 hst).2 hlt
          obtain ⟨hpj, hmj⟩ := ((hin j hj).2 hstj).2 hltj
          exact ⟨by simp [hpi, hpj, hch], by simp [hmi, hmj]⟩
      · have hstf : (s.pool i).subscriptions.contains t = false := by
          cases h : (s.pool i).subscriptions.contains t
          · rfl
          · exact absurd h hst
        have hstfj : (s.pool j).subscriptions.contains t = false := by
          rw [← hsub]
          exact hstf
        obtain ⟨hpi, hmi⟩ := (hin i hi).1 hstf
        obtain ⟨hpj, hmj⟩ := (hin j hj).1 hstfj
        exact ⟨by rw [hpi, hpj]; exact hch, by simp [hmi, hmj]⟩
    exact ⟨s', n, by simpa [processBroadcastToSubscribers] using hrun, hmain⟩

/-- Witness for C10: two subscribe envelopes for orders differing only in
the filter lists, and two registered clients with identical subscription
sets and queues under a topic broadcast to orders. -/
theorem subscribe_filters_discarded_witness :
    (handleSubscription [] subscribeMsg1).1 = (handleSubscription [] subscribeMsg2).1 ∧
    ∃ s' n, processBroadcastToSubscribers twoOrdersState "orders" fillMsg = .ok (s', n) ∧
      (s'.pool 0).send = (s'.pool 1).send ∧ (0 ∈ s'.registry ↔ 1 ∈ s'.registry) :=
  subscribe_filters_discarded [] subWithInstruments subWithAccounts rfl
    subscribeMsg1 subscribeMsg2 rfl rfl twoOrdersState "orders" fillMsg 0 1
    (by decide) (by decide) (by decide) rfl rfl (by decide)

end TradingHub
